import Mathlib

set_option linter.all false
set_option maxHeartbeats 1000000

/-
  Verification of the devon diagnostics viewer (src/main.rs) against its
  natural-language specification.  The Rust code is shallowly embedded:
  usize becomes Nat, panicking operations (vector indexing, usize
  subtraction underflow, unwrap, unreachable!) become Option / Except
  returning none / an error on the panicking path.
-/

namespace Devon

/-- One rendered diagnostic (main.rs, struct Item): an ordered list of
pre-rendered byte rows.  Each row is a list of bytes. -/
structure Item where
  lines : List (List Nat)
deriving DecidableEq

/-- The application state (main.rs, struct App). -/
structure App where
  items : List Item
  line_offsets : List Nat
  first_visible_item : Nat
  first_visible_subline : Nat
  selected_item : Nat
  width : Nat
  height : Nat
deriving DecidableEq

/-- The prefix-sum construction of line_offsets (main.rs 255-263): the loop
pushes the running offset before adding the length of the current item. -/
def mk_line_offsets : List Item → Nat → List Nat
  | [], _ => []
  | it :: rest, off => off :: mk_line_offsets rest (off + it.lines.length)

/-- The App built in main (main.rs 249-263): Default gives zero viewport
fields, then line_offsets is filled from the items. -/
def init_app (items : List Item) (width height : Nat) : App :=
  { items := items, line_offsets := mk_line_offsets items 0,
    first_visible_item := 0, first_visible_subline := 0, selected_item := 0,
    width := width, height := height }

/-- usize subtraction; none models a Rust underflow panic. -/
def checkedSub (a b : Nat) : Option Nat :=
  if b ≤ a then some (a - b) else none

/-- App::line_offset (main.rs 234-236): line_offsets[item] + subline, with
none modelling the index panic. -/
def line_offset (a : App) (item subline : Nat) : Option Nat :=
  match a.line_offsets.get? item with
  | some off => some (off + subline)
  | none => none

/-- The scroll loop body of the Move-Down handler (main.rs 306-314):
advance the pair (first_visible_item, first_visible_subline) by one
subline, delta times, rolling over to the next item when the current one
is exhausted.  none models an index or underflow panic inside the loop. -/
def advance_viewport (items : List Item) : Nat → Nat → Nat → Option (Nat × Nat)
  | fvi, fvs, 0 => some (fvi, fvs)
  | fvi, fvs, d + 1 =>
    match items.get? fvi with
    | none => none
    | some it =>
      match checkedSub it.lines.length 1 with
      | none => none
      | some lim =>
        if fvs + 1 > lim then advance_viewport items (fvi + 1) 0 d
        else advance_viewport items fvi (fvs + 1) d

/-- The Move-Up (KeyCode::Up) handler (main.rs 280-289). -/
def move_up (a : App) : App :=
  if a.selected_item > 0 then
    let sel := a.selected_item - 1
    if a.first_visible_item ≥ sel then
      { a with selected_item := sel, first_visible_item := sel,
               first_visible_subline := 0 }
    else
      { a with selected_item := sel }
  else a

/-- The Move-Down (KeyCode::Down) handler (main.rs 290-318).  none models a
panic (index out of bounds or usize underflow). -/
def move_down (a : App) : Option App :=
  if a.selected_item + 1 < a.items.length then
    let sel := a.selected_item + 1
    match line_offset a a.first_visible_item a.first_visible_subline with
    | none => none
    | some lv0 =>
      match checkedSub (lv0 + a.height) 1 with
      | none => none
      | some last_visible_offset =>
        match a.items.get? sel with
        | none => none
        | some it =>
          match checkedSub it.lines.length 1 with
          | none => none
          | some last_sub =>
            match line_offset { a with selected_item := sel } sel last_sub with
            | none => none
            | some selected_last_offset =>
              if last_visible_offset < selected_last_offset then
                match advance_viewport a.items a.first_visible_item
                        a.first_visible_subline
                        (selected_last_offset - last_visible_offset) with
                | none => none
                | some (fvi, fvs) =>
                  some { a with selected_item := sel, first_visible_item := fvi,
                                first_visible_subline := fvs }
              else
                some { a with selected_item := sel }
  else some a

/-- The two navigation key events of interest. -/
inductive Ev
  | up
  | down
deriving DecidableEq

/-- One iteration of the event loop, restricted to navigation keys. -/
def step : Ev → App → Option App
  | .up, a => some (move_up a)
  | .down, a => move_down a

/-- A whole sequence of navigation events; none as soon as one step panics. -/
def run : List Ev → App → Option App
  | [], a => some a
  | e :: es, a =>
    match step e a with
    | none => none
    | some a' => run es a'

/-- Number of sublines of item i (0 when i is out of range). -/
def nl (items : List Item) (i : Nat) : Nat :=
  (items.getD i { lines := [] }).lines.length

/-- Total-function view of line_offsets[i] (0 when out of range). -/
def offset_at (a : App) (i : Nat) : Nat :=
  a.line_offsets.getD i 0

/-- Invariant V1 of the spec: the last subline of the selected item is at a
global offset at most (offset of the first visible subline) + height - 1. -/
def V1 (a : App) : Prop :=
  offset_at a a.selected_item + (nl a.items a.selected_item - 1) ≤
    offset_at a a.first_visible_item + a.first_visible_subline + a.height - 1

/-- Invariant V2 of the spec: the first visible item is at or above the
selected item, and when they coincide the viewport starts at subline 0. -/
def V2 (a : App) : Prop :=
  a.first_visible_item ≤ a.selected_item ∧
  (a.first_visible_item = a.selected_item → a.first_visible_subline = 0)

instance (a : App) : Decidable (V1 a) := by unfold V1; infer_instance

instance (a : App) : Decidable (V2 a) := by unfold V2; infer_instance

/-- Sum of the subline counts of the first i items. -/
def pre_sum (items : List Item) (i : Nat) : Nat :=
  ((items.take i).map (fun it => it.lines.length)).sum

/-- Well-formedness of an App state: line_offsets is the prefix-sum table
built by main, the item list is non-empty with every item non-empty, the
height is positive, the selection and viewport anchors are in bounds. -/
def Bounds (a : App) : Prop :=
  a.line_offsets = mk_line_offsets a.items 0 ∧
  a.items ≠ [] ∧
  (∀ it ∈ a.items, 1 ≤ it.lines.length) ∧
  1 ≤ a.height ∧
  a.selected_item < a.items.length ∧
  a.first_visible_item < a.items.length ∧
  a.first_visible_subline < nl a.items a.first_visible_item

/-- Every item fits on the screen: no item has more sublines than the
terminal height. -/
def ShortItems (a : App) : Prop :=
  ∀ it ∈ a.items, it.lines.length ≤ a.height

theorem mk_line_offsets_length (items : List Item) (k : Nat) :
    (mk_line_offsets items k).length = items.length := by
  induction items generalizing k with
  | nil => rfl
  | cons it rest ih => simp [mk_line_offsets, ih]

theorem pre_sum_zero (items : List Item) : pre_sum items 0 = 0 := rfl

theorem pre_sum_cons (it : Item) (rest : List Item) (i : Nat) :
    pre_sum (it :: rest) (i + 1) = it.lines.length + pre_sum rest i := by
  simp [pre_sum, List.take_succ_cons]

theorem nl_cons_succ (it : Item) (rest : List Item) (i : Nat) :
    nl (it :: rest) (i + 1) = nl rest i := rfl

theorem mk_line_offsets_get? (items : List Item) (k i : Nat) (h : i < items.length) :
    (mk_line_offsets items k).get? i = some (k + pre_sum items i) := by
  induction items generalizing k i with
  | nil => simp at h
  | cons it rest ih =>
    cases i with
    | zero => simp [mk_line_offsets, pre_sum_zero]
    | succ j =>
      have hj : j < rest.length := by simpa using h
      have := ih (k + it.lines.length) j hj
      simp only [mk_line_offsets, List.get?, this, pre_sum_cons, Option.some.injEq]
      omega

theorem pre_sum_succ (items : List Item) (i : Nat) (h : i < items.length) :
    pre_sum items (i + 1) = pre_sum items i + nl items i := by
  induction items generalizing i with
  | nil => simp at h
  | cons it rest ih =>
    cases i with
    | zero =>
      simp [pre_sum_cons, pre_sum_zero, nl]
    | succ j =>
      have hj : j < rest.length := by simpa using h
      rw [pre_sum_cons, ih j hj, pre_sum_cons, nl_cons_succ]
      omega

theorem pre_sum_of_le (items : List Item) (i : Nat) (h : items.length ≤ i) :
    pre_sum items i = pre_sum items items.length := by
  unfold pre_sum
  rw [List.take_of_length_le h, List.take_of_length_le (Nat.le_refl _)]

theorem pre_sum_mono (items : List Item) {i j : Nat} (h : i ≤ j) :
    pre_sum items i ≤ pre_sum items j := by
  induction j with
  | zero => simp_all
  | succ j ih =>
    rcases Nat.lt_or_ge i (j + 1) with hlt | hge
    · have hij : i ≤ j := Nat.lt_succ_iff.mp hlt
      rcases Nat.lt_or_ge j items.length with hj | hj
      · calc pre_sum items i ≤ pre_sum items j := ih hij
          _ ≤ pre_sum items (j + 1) := by rw [pre_sum_succ items j hj]; omega
      · rw [pre_sum_of_le items (j + 1) (by omega), ← pre_sum_of_le items j hj]
        exact ih hij
    · have : i = j + 1 := by omega
      subst this; exact Nat.le_refl _

theorem pre_sum_lt_length (items : List Item) (j : Nat)
    (h : pre_sum items j < pre_sum items items.length) : j < items.length := by
  by_contra hge
  rw [pre_sum_of_le items j (by omega)] at h
  omega

theorem getD_mem (items : List Item) (i : Nat) (h : i < items.length) :
    items.getD i { lines := [] } ∈ items := by
  rw [List.getD_eq_get?, List.get?_eq_get h]
  exact List.get_mem items i h

theorem get?_eq_getD (items : List Item) (i : Nat) (h : i < items.length) :
    items.get? i = some (items.getD i { lines := [] }) := by
  rw [List.getD_eq_get?, List.get?_eq_get h]
  rfl

theorem nl_pos (items : List Item) (i : Nat)
    (hlen : ∀ it ∈ items, 1 ≤ it.lines.length) (h : i < items.length) :
    1 ≤ nl items i :=
  hlen _ (getD_mem items i h)

theorem valid_offset_lt_total (items : List Item) (i s : Nat)
    (hi : i < items.length) (hs : s < nl items i) :
    pre_sum items i + s < pre_sum items items.length := by
  have h1 : pre_sum items i + s < pre_sum items (i + 1) := by
    rw [pre_sum_succ items i hi]; omega
  have h2 : pre_sum items (i + 1) ≤ pre_sum items items.length :=
    pre_sum_mono items (by omega)
  omega

theorem offset_at_eq (a : App) (i : Nat)
    (hoff : a.line_offsets = mk_line_offsets a.items 0) (h : i < a.items.length) :
    offset_at a i = pre_sum a.items i := by
  unfold offset_at
  rw [hoff, List.getD_eq_get?, mk_line_offsets_get? a.items 0 i h]
  simp

theorem line_offset_eq (a : App) (i s : Nat)
    (hoff : a.line_offsets = mk_line_offsets a.items 0) (h : i < a.items.length) :
    line_offset a i s = some (pre_sum a.items i + s) := by
  unfold line_offset
  rw [hoff, mk_line_offsets_get? a.items 0 i h]
  simp

theorem checkedSub_eq (x y : Nat) (h : y ≤ x) : checkedSub x y = some (x - y) := by
  unfold checkedSub
  rw [if_pos h]

/-- The scroll loop of Move-Down, run from a valid viewport anchor for delta
steps that stay inside the item list, succeeds and lands on the valid
position exactly delta global sublines further down. -/
theorem advance_spec (items : List Item)
    (hlen : ∀ it ∈ items, 1 ≤ it.lines.length) :
    ∀ (d fvi fvs : Nat), fvi < items.length → fvs < nl items fvi →
    pre_sum items fvi + fvs + d < pre_sum items items.length →
    ∃ fvi' fvs', advance_viewport items fvi fvs d = some (fvi', fvs') ∧
      fvi' < items.length ∧ fvs' < nl items fvi' ∧
      pre_sum items fvi' + fvs' = pre_sum items fvi + fvs + d := by
  intro d
  induction d with
  | zero =>
    intro fvi fvs hi hs _
    exact ⟨fvi, fvs, rfl, hi, hs, rfl⟩
  | succ d ih =>
    intro fvi fvs hi hs hbound
    have hit : items.get? fvi = some (items.getD fvi { lines := [] }) :=
      get?_eq_getD items fvi hi
    have hnl : (items.getD fvi { lines := [] }).lines.length = nl items fvi := rfl
    have h1 : 1 ≤ nl items fvi := nl_pos items fvi hlen hi
    have hsub : checkedSub (items.getD fvi { lines := [] }).lines.length 1 =
        some (nl items fvi - 1) := by
      rw [hnl]; exact checkedSub_eq _ _ h1
    have hsucc : pre_sum items (fvi + 1) = pre_sum items fvi + nl items fvi :=
      pre_sum_succ items fvi hi
    by_cases hroll : fvs + 1 > nl items fvi - 1
    · have hfull : fvs + 1 = nl items fvi := by omega
      have hlt1 : fvi + 1 < items.length := by
        apply pre_sum_lt_length
        omega
      have h0nl : 0 < nl items (fvi + 1) := nl_pos items (fvi + 1) hlen hlt1
      obtain ⟨fvi', fvs', heq, hvi', hvs', hpos⟩ :=
        ih (fvi + 1) 0 hlt1 h0nl (by omega)
      refine ⟨fvi', fvs', ?_, hvi', hvs', by omega⟩
      simp only [advance_viewport, hit, hsub]
      rw [if_pos hroll]
      exact heq
    · have hvalid : fvs + 1 < nl items fvi := by omega
      obtain ⟨fvi', fvs', heq, hvi', hvs', hpos⟩ :=
        ih fvi (fvs + 1) hi hvalid (by omega)
      refine ⟨fvi', fvs', ?_, hvi', hvs', by omega⟩
      simp only [advance_viewport, hit, hsub]
      rw [if_neg hroll]
      exact heq

theorem getD_offsets (a : App) (i : Nat)
    (hoff : a.line_offsets = mk_line_offsets a.items 0) (h : i < a.items.length) :
    a.line_offsets.getD i 0 = pre_sum a.items i :=
  offset_at_eq a i hoff h

/-- Move-Up from a well-formed state keeps the state well-formed, keeps the
item list / dimensions, preserves V2 unconditionally, and preserves V1 as
long as every item fits on the screen. -/
theorem move_up_spec (a : App) (hB : Bounds a) :
    Bounds (move_up a) ∧ (move_up a).items = a.items ∧
    (move_up a).height = a.height ∧ (move_up a).line_offsets = a.line_offsets ∧
    (V2 a → V2 (move_up a)) ∧ (V1 a → ShortItems a → V1 (move_up a)) := by
  obtain ⟨hoff, hne, hlen, hh, hsel, hfvi, hfvs⟩ := hB
  by_cases h0 : a.selected_item > 0
  · by_cases hge : a.first_visible_item ≥ a.selected_item - 1
    · have hsel' : a.selected_item - 1 < a.items.length := by omega
      unfold move_up
      rw [if_pos h0, if_pos hge]
      refine ⟨⟨hoff, hne, hlen, hh, hsel', hsel', ?_⟩, rfl, rfl, rfl, ?_, ?_⟩
      · exact nl_pos a.items _ hlen hsel'
      · intro _
        exact ⟨Nat.le_refl _, fun _ => rfl⟩
      · intro _ hshort
        unfold V1 offset_at
        simp only
        rw [getD_offsets a _ hoff hsel']
        have h2 : nl a.items (a.selected_item - 1) ≤ a.height :=
          hshort _ (getD_mem a.items _ hsel')
        omega
    · have hsel' : a.selected_item - 1 < a.items.length := by omega
      unfold move_up
      rw [if_pos h0, if_neg hge]
      refine ⟨⟨hoff, hne, hlen, hh, hsel', hfvi, hfvs⟩, rfl, rfl, rfl, ?_, ?_⟩
      · intro _
        constructor
        · show a.first_visible_item ≤ a.selected_item - 1
          omega
        · intro h
          have h' : a.first_visible_item = a.selected_item - 1 := h
          exact absurd h' (by omega)
      · intro hV1 _
        unfold V1 offset_at at hV1 ⊢
        simp only at hV1 ⊢
        rw [getD_offsets a _ hoff hsel', getD_offsets a _ hoff hfvi]
        rw [getD_offsets a _ hoff hsel, getD_offsets a _ hoff hfvi] at hV1
        have e3 : pre_sum a.items (a.selected_item - 1 + 1) =
            pre_sum a.items (a.selected_item - 1) + nl a.items (a.selected_item - 1) :=
          pre_sum_succ a.items _ hsel'
        have e4 : a.selected_item - 1 + 1 = a.selected_item := by omega
        rw [e4] at e3
        have e5 : 1 ≤ nl a.items a.selected_item := nl_pos a.items _ hlen hsel
        omega
  · unfold move_up
    rw [if_neg h0]
    exact ⟨⟨hoff, hne, hlen, hh, hsel, hfvi, hfvs⟩, rfl, rfl, rfl, fun h => h,
      fun h _ => h⟩

/-- Move-Down from a well-formed state never panics, keeps the state
well-formed, re-establishes V1 whenever its precondition held (and otherwise
leaves the state unchanged), and preserves V2 when every item fits on the
screen. -/
theorem move_down_spec (a : App) (hB : Bounds a) :
    ∃ a', move_down a = some a' ∧ Bounds a' ∧ a'.items = a.items ∧
      a'.height = a.height ∧ a'.line_offsets = a.line_offsets ∧
      (a.selected_item + 1 < a.items.length →
        a'.selected_item = a.selected_item + 1 ∧ V1 a') ∧
      (¬ a.selected_item + 1 < a.items.length → a' = a) ∧
      (V1 a → V1 a') ∧ (V2 a → ShortItems a → V2 a') := by
  obtain ⟨hoff, hne, hlen, hh, hsel, hfvi, hfvs⟩ := hB
  by_cases hpre : a.selected_item + 1 < a.items.length
  case neg =>
    refine ⟨a, ?_, ⟨hoff, hne, hlen, hh, hsel, hfvi, hfvs⟩, rfl, rfl, rfl,
      fun h => absurd h hpre, fun _ => rfl, fun h => h, fun h _ => h⟩
    unfold move_down
    rw [if_neg hpre]
  case pos =>
    have e1 : line_offset a a.first_visible_item a.first_visible_subline =
        some (pre_sum a.items a.first_visible_item + a.first_visible_subline) :=
      line_offset_eq a _ _ hoff hfvi
    have e2 : checkedSub (pre_sum a.items a.first_visible_item +
        a.first_visible_subline + a.height) 1 =
        some (pre_sum a.items a.first_visible_item +
          a.first_visible_subline + a.height - 1) :=
      checkedSub_eq _ _ (by omega)
    have e3 : a.items.get? (a.selected_item + 1) =
        some (a.items.getD (a.selected_item + 1) { lines := [] }) :=
      get?_eq_getD a.items _ hpre
    have hnlsel : 1 ≤ nl a.items (a.selected_item + 1) :=
      nl_pos a.items _ hlen hpre
    have e4 : checkedSub
        (a.items.getD (a.selected_item + 1) { lines := [] }).lines.length 1 =
        some (nl a.items (a.selected_item + 1) - 1) := by
      show checkedSub (nl a.items (a.selected_item + 1)) 1 = _
      exact checkedSub_eq _ _ hnlsel
    have e5 : line_offset { a with selected_item := a.selected_item + 1 } (a.selected_item + 1) (nl a.items (a.selected_item + 1) - 1) = some (pre_sum a.items (a.selected_item + 1) + (nl a.items (a.selected_item + 1) - 1)) :=
      line_offset_eq _ _ _ hoff hpre
    have hSlt : pre_sum a.items (a.selected_item + 1) +
        (nl a.items (a.selected_item + 1) - 1) <
        pre_sum a.items a.items.length :=
      valid_offset_lt_total a.items _ _ hpre (by omega)
    have hsucc' : pre_sum a.items (a.selected_item + 1 + 1) =
        pre_sum a.items (a.selected_item + 1) + nl a.items (a.selected_item + 1) :=
      pre_sum_succ a.items _ hpre
    by_cases hscroll : pre_sum a.items a.first_visible_item +
        a.first_visible_subline + a.height - 1 <
        pre_sum a.items (a.selected_item + 1) +
          (nl a.items (a.selected_item + 1) - 1)
    · obtain ⟨fvi', fvs', heq, hvi', hvs', hpos⟩ :=
        advance_spec a.items hlen
          (pre_sum a.items (a.selected_item + 1) +
            (nl a.items (a.selected_item + 1) - 1) -
            (pre_sum a.items a.first_visible_item +
              a.first_visible_subline + a.height - 1))
          a.first_visible_item a.first_visible_subline hfvi hfvs (by omega)
      have hmd : move_down a = some { a with selected_item := a.selected_item + 1, first_visible_item := fvi', first_visible_subline := fvs' } := by
        simp only [move_down]
        rw [if_pos hpre]
        simp only [e1, e2, e3, e4, e5]
        rw [if_pos hscroll, heq]
      refine ⟨_, hmd, ⟨hoff, hne, hlen, hh, hpre, hvi', hvs'⟩, rfl, rfl, rfl,
        ?_, fun h => absurd hpre h, ?_, ?_⟩
      · refine fun _ => ⟨rfl, ?_⟩
        unfold V1 offset_at
        simp only
        rw [getD_offsets a _ hoff hpre, getD_offsets a _ hoff hvi']
        omega
      · intro _
        unfold V1 offset_at
        simp only
        rw [getD_offsets a _ hoff hpre, getD_offsets a _ hoff hvi']
        omega
      · intro _ hshort
        have hfit : nl a.items (a.selected_item + 1) ≤ a.height :=
          hshort _ (getD_mem a.items _ hpre)
        have hfvile : fvi' ≤ a.selected_item + 1 := by
          by_contra hgt
          have hmono : pre_sum a.items (a.selected_item + 1 + 1) ≤
              pre_sum a.items fvi' := pre_sum_mono a.items (by omega)
          omega
        constructor
        · show fvi' ≤ a.selected_item + 1
          exact hfvile
        · intro hfe
          have hfe' : fvi' = a.selected_item + 1 := hfe
          show fvs' = 0
          rw [hfe'] at hpos
          omega
    · have hmd : move_down a = some { a with selected_item := a.selected_item + 1 } := by
        simp only [move_down]
        rw [if_pos hpre]
        simp only [e1, e2, e3, e4, e5]
        rw [if_neg hscroll]
      refine ⟨_, hmd, ⟨hoff, hne, hlen, hh, hpre, hfvi, hfvs⟩, rfl, rfl, rfl,
        ?_, fun h => absurd hpre h, ?_, ?_⟩
      · refine fun _ => ⟨rfl, ?_⟩
        unfold V1 offset_at
        simp only
        rw [getD_offsets a _ hoff hpre, getD_offsets a _ hoff hfvi]
        omega
      · intro _
        unfold V1 offset_at
        simp only
        rw [getD_offsets a _ hoff hpre, getD_offsets a _ hoff hfvi]
        omega
      · intro hV2 _
        obtain ⟨hv2a, _⟩ := hV2
        constructor
        · show a.first_visible_item ≤ a.selected_item + 1
          omega
        · intro hfe
          have hfe' : a.first_visible_item = a.selected_item + 1 := hfe
          exact absurd hfe' (by omega)

theorem short_transfer (a a' : App) (hi : a'.items = a.items)
    (hh : a'.height = a.height) (hs : ShortItems a) : ShortItems a' := by
  intro it hmem
  rw [hi] at hmem
  rw [hh]
  exact hs it hmem

/-- One navigation step from a well-formed state satisfying both viewport
invariants, in which every item fits on the screen, succeeds and preserves
all of it. -/
theorem step_good (e : Ev) (a : App) (hB : Bounds a) (h1 : V1 a) (h2 : V2 a)
    (hs : ShortItems a) :
    ∃ a', step e a = some a' ∧ Bounds a' ∧ V1 a' ∧ V2 a' ∧ ShortItems a' := by
  cases e
  case up =>
    obtain ⟨hB', hitems, hheight, _, hv2, hv1⟩ := move_up_spec a hB
    exact ⟨move_up a, rfl, hB', hv1 h1 hs, hv2 h2,
      short_transfer _ _ hitems hheight hs⟩
  case down =>
    obtain ⟨a', hmd, hB', hitems, hheight, _, _, _, hv1, hv2⟩ :=
      move_down_spec a hB
    exact ⟨a', hmd, hB', hv1 h1, hv2 h2 hs,
      short_transfer _ _ hitems hheight hs⟩

/-- Any sequence of navigation steps from a good state reaches a good state. -/
theorem run_good (evs : List Ev) : ∀ (a : App), Bounds a → V1 a → V2 a →
    ShortItems a →
    ∃ s, run evs a = some s ∧ Bounds s ∧ V1 s ∧ V2 s ∧ ShortItems s := by
  induction evs with
  | nil =>
    intro a hB h1 h2 hs
    exact ⟨a, rfl, hB, h1, h2, hs⟩
  | cons e es ih =>
    intro a hB h1 h2 hs
    obtain ⟨a', hstep, hB', h1', h2', hs'⟩ := step_good e a hB h1 h2 hs
    obtain ⟨s, hrun, hgood⟩ := ih a' hB' h1' h2' hs'
    refine ⟨s, ?_, hgood⟩
    simp only [run, hstep]
    exact hrun

/-- The state built at startup is good when the items are non-empty and each
fits on the screen. -/
theorem init_good (items : List Item) (w h : Nat) (hne : items ≠ [])
    (hfit : ∀ it ∈ items, 1 ≤ it.lines.length ∧ it.lines.length ≤ h) :
    Bounds (init_app items w h) ∧ V1 (init_app items w h) ∧
    V2 (init_app items w h) ∧ ShortItems (init_app items w h) := by
  have hlen0 : 0 < items.length := List.length_pos.mpr hne
  have h0 := hfit _ (getD_mem items 0 hlen0)
  have hh : 1 ≤ h := by omega
  refine ⟨⟨rfl, hne, fun it hm => (hfit it hm).1, hh, hlen0, hlen0, ?_⟩, ?_, ?_, ?_⟩
  · exact nl_pos items 0 (fun it hm => (hfit it hm).1) hlen0
  · show offset_at (init_app items w h) 0 + (nl items 0 - 1) ≤
      offset_at (init_app items w h) 0 + 0 + h - 1
    have : nl items 0 ≤ h := h0.2
    omega
  · exact ⟨Nat.le_refl _, fun _ => rfl⟩
  · intro it hm
    show it.lines.length ≤ h
    exact (hfit it hm).2

/-- With an empty item list both navigation keys are no-ops. -/
theorem run_items_nil (evs : List Ev) (w h : Nat) :
    run evs (init_app [] w h) = some (init_app [] w h) := by
  induction evs with
  | nil => rfl
  | cons e es ih =>
    have hstep : step e (init_app [] w h) = some (init_app [] w h) := by
      cases e <;> rfl
    simp only [run, hstep]
    exact ih

instance (a : App) : Decidable (Bounds a) := by unfold Bounds; infer_instance

/-- An item with ten (empty) byte rows: taller than a height-5 terminal. -/
def tall_item : Item := { lines := List.replicate 10 [] }

/-- An item with a single (empty) byte row. -/
def unit_item : Item := { lines := [[]] }

/-- Three items of four sublines each, as in spec Scenario 3. -/
def items3 : List Item :=
  [{ lines := List.replicate 4 [] }, { lines := List.replicate 4 [] },
   { lines := List.replicate 4 [] }]

/-- C1 counterexample: with a non-empty item list (first item 10 sublines,
second 1 subline) and height 5, the event sequence Move-Down, Move-Up runs
without panic and ends in a state violating Invariant V1: the last subline
of the selected item has global offset 9, while the last visible offset is
only 4.  The claim as stated is therefore false. -/
theorem c1_counterexample :
    run [Ev.down, Ev.up] (init_app [tall_item, unit_item] 80 5) =
      some (init_app [tall_item, unit_item] 80 5) ∧
    ¬ V1 (init_app [tall_item, unit_item] 80 5) := by
  decide

/-- C1 amended: for every sequence of Move-Up / Move-Down events from the
initial state, if the item list is non-empty and additionally every item
has between 1 and height sublines (each item fits on the screen), then
after every event the last subline of the selected item has global offset
at most line_offset(first_visible_item, first_visible_subline) + height - 1
(Invariant V1). -/
theorem c1_selection_stays_visible (items : List Item) (w h : Nat)
    (evs : List Ev) (s : App) (hne : items ≠ [])
    (hfit : ∀ it ∈ items, 1 ≤ it.lines.length ∧ it.lines.length ≤ h)
    (hrun : run evs (init_app items w h) = some s) : V1 s := by
  obtain ⟨hB, h1, h2, hs⟩ := init_good items w h hne hfit
  obtain ⟨s', hrun', _, h1', _, _⟩ := run_good evs _ hB h1 h2 hs
  rw [hrun] at hrun'
  injection hrun' with hss
  rw [hss]
  exact h1'

/-- Witness for C1: two one-line items on a height-1 terminal, one
Move-Down; the resulting state satisfies V1. -/
theorem c1_selection_stays_visible_witness :
    V1 (App.mk [unit_item, unit_item] [0, 1] 1 0 1 80 1) :=
  c1_selection_stays_visible [unit_item, unit_item] 80 1 [Ev.down] _
    (by decide) (by decide) (by decide)

/-- C2 counterexample: with a one-subline first item, a ten-subline second
item and height 5, a single Move-Down runs without panic and ends with
first_visible_item = selected_item = 1 but first_visible_subline = 5 ≠ 0,
violating Invariant V2.  The claim as stated is therefore false. -/
theorem c2_counterexample :
    run [Ev.down] (init_app [unit_item, tall_item] 80 5) =
      some (App.mk [unit_item, tall_item] [0, 1] 1 5 1 80 5) ∧
    ¬ V2 (App.mk [unit_item, tall_item] [0, 1] 1 5 1 80 5) := by
  decide

/-- C2 amended: for every sequence of Move-Up / Move-Down events from the
initial state, if every item has between 1 and height sublines (each item
fits on the screen), then after every event first_visible_item ≤
selected_item, and whenever they are equal first_visible_subline is 0
(Invariant V2). -/
theorem c2_viewport_not_below_selection (items : List Item) (w h : Nat)
    (evs : List Ev) (s : App)
    (hfit : ∀ it ∈ items, 1 ≤ it.lines.length ∧ it.lines.length ≤ h)
    (hrun : run evs (init_app items w h) = some s) : V2 s := by
  cases items with
  | nil =>
    rw [run_items_nil] at hrun
    injection hrun with hss
    rw [← hss]
    exact ⟨Nat.le_refl _, fun _ => rfl⟩
  | cons it rest =>
    obtain ⟨hB, h1, h2, hs⟩ := init_good (it :: rest) w h (by simp) hfit
    obtain ⟨s', hrun', _, _, h2', _⟩ := run_good evs _ hB h1 h2 hs
    rw [hrun] at hrun'
    injection hrun' with hss
    rw [hss]
    exact h2'

/-- Witness for C2: two one-line items on a height-1 terminal, one
Move-Down; the resulting state satisfies V2. -/
theorem c2_viewport_not_below_selection_witness :
    V2 (App.mk [unit_item, unit_item] [0, 1] 1 0 1 80 1) :=
  c2_viewport_not_below_selection [unit_item, unit_item] 80 1 [Ev.down] _
    (by decide) (by decide)

/-- C6: with three items of four sublines each and height 6, one Move-Down
yields selected_item = 1, first_visible_item = 0, first_visible_subline = 2,
and a second Move-Down yields selected_item = 2, first_visible_item = 1,
first_visible_subline = 2, exactly as the spec scenario states. -/
theorem c6_scenario_navigation :
    run [Ev.down] (init_app items3 80 6) =
      some (App.mk items3 [0, 4, 8] 0 2 1 80 6) ∧
    run [Ev.down, Ev.down] (init_app items3 80 6) =
      some (App.mk items3 [0, 4, 8] 1 2 2 80 6) := by
  decide

/-- C7: from any state where the Move-Down precondition
selected_item + 1 < items.length holds, Move-Down (when it completes)
followed by Move-Up restores selected_item to its prior value. -/
theorem c7_down_then_up_restores_selection (a a' : App)
    (hpre : a.selected_item + 1 < a.items.length)
    (hdown : move_down a = some a') :
    (move_up a').selected_item = a.selected_item := by
  have hsel' : a'.selected_item = a.selected_item + 1 := by
    simp only [move_down] at hdown
    rw [if_pos hpre] at hdown
    repeat' split at hdown
    all_goals first
      | exact Option.noConfusion hdown
      | (injection hdown with hY; rw [← hY])
  unfold move_up
  rw [if_pos (show a'.selected_item > 0 by omega)]
  by_cases hge : a'.first_visible_item ≥ a'.selected_item - 1
  · rw [if_pos hge]
    show a'.selected_item - 1 = a.selected_item
    omega
  · rw [if_neg hge]
    show a'.selected_item - 1 = a.selected_item
    omega

/-- Witness for C7: in Scenario 3, from the initial state a Move-Down then
Move-Up leaves selected_item at 0. -/
theorem c7_down_then_up_restores_selection_witness :
    (move_up (App.mk items3 [0, 4, 8] 0 2 1 80 6)).selected_item =
      (init_app items3 80 6).selected_item :=
  c7_down_then_up_restores_selection (init_app items3 80 6)
    (App.mk items3 [0, 4, 8] 0 2 1 80 6) (by decide) (by decide)

/-- C10: from any state satisfying the viewport bounds (non-empty item
list, every item at least one subline, positive height, selection and
viewport anchor valid, line_offsets the prefix-sum table), both Move-Up
and Move-Down run without any out-of-bounds indexing or underflow (the
step returns some rather than the none that models a panic), and the
resulting state satisfies the bounds again. -/
theorem c10_navigation_safe (e : Ev) (a : App) (hB : Bounds a) :
    ∃ a', step e a = some a' ∧ Bounds a' := by
  cases e
  case up =>
    obtain ⟨hB', _⟩ := move_up_spec a hB
    exact ⟨move_up a, rfl, hB'⟩
  case down =>
    obtain ⟨a', hmd, hB', _⟩ := move_down_spec a hB
    exact ⟨a', hmd, hB'⟩

/-- Witness for C10: a Move-Down from the initial two-item state on a
height-3 terminal is safe. -/
theorem c10_navigation_safe_witness :
    ∃ a', step Ev.down (init_app [unit_item, unit_item] 80 3) = some a' ∧
      Bounds a' :=
  c10_navigation_safe Ev.down (init_app [unit_item, unit_item] 80 3)
    (by decide)

/-- Report kinds used by the renderer (ariadne::ReportKind). -/
inductive ReportKind
  | Error
  | Warning
  | Advice
deriving DecidableEq

/-- Severity selection from the first letter of the flake8 CODE
(main.rs 146-153); none models the unreachable! panic taken on any other
letter. -/
def report_kind_of : Char → Option ReportKind
  | 'E' => some ReportKind.Error
  | 'W' => some ReportKind.Warning
  | 'F' => some ReportKind.Error
  | 'C' => some ReportKind.Advice
  | 'N' => some ReportKind.Warning
  | _ => none

/-- Mirror of str::split on the colon character: "" gives [""], separators
at the ends give empty pieces, and the result is never empty. -/
def split_colon : List Char → List (List Char)
  | [] => [[]]
  | c :: rest =>
    if c = ':' then [] :: split_colon rest
    else
      match split_colon rest with
      | [] => [[c]]
      | g :: gs => (c :: g) :: gs

def is_digit (c : Char) : Bool := decide ('0' ≤ c) && decide (c ≤ '9')

def digits_val : List Char → Nat → Nat
  | [], acc => acc
  | c :: rest, acc => digits_val rest (acc * 10 + (c.toNat - '0'.toNat))

/-- usize::from_str as used by str::parse (main.rs 131-132): an optional
leading plus sign followed by one or more ASCII digits; none models the
parse failure behind the .unwrap() panic site.  The 64-bit overflow
failure of usize is not modelled (no claim exercises it). -/
def parse_usize (l : List Char) : Option Nat :=
  let l' := if l.head? = some '+' then l.drop 1 else l
  if l'.isEmpty then none
  else if l'.all is_digit then some (digits_val l' 0) else none

/-- The distinct panic sites of the flake8 per-line parser: unwrap on a
missing token, usize parse failure, byte-slice out of range, and the
unreachable! arm of the severity match. -/
inductive FlakePanic
  | unwrapNone
  | parseFailed
  | sliceOutOfRange
  | unreachableCode
deriving DecidableEq

/-- The values the flake8 loop extracts from one stdout line
(main.rs 127-153): path, one-based row and column, the 4-character code,
the label message, and the report kind.  Reading the referenced source
file and rendering the snippet (main.rs 137-143, 155-161) are external
I/O and are not modelled. -/
structure FlakeDiag where
  path : List Char
  row : Nat
  col : Nat
  code : List Char
  msg : List Char
  kind : ReportKind
deriving DecidableEq

/-- The parsing part of the flake8 loop body for one stdout line
(main.rs 127-153).  tokens = line.split(on the colon); path, row, col and
rest are the first four tokens (unwrap panics when absent); code is the
byte slice rest[1..5] and msg the byte slice rest[6..] (slice panics when
the token is too short); the report kind comes from the first character of
code, with the unreachable! panic on an unknown letter. -/
def flake8_line (line : List Char) : Except FlakePanic FlakeDiag :=
  let tokens := split_colon line
  match tokens.get? 0 with
  | none => .error .unwrapNone
  | some path =>
    match tokens.get? 1 with
    | none => .error .unwrapNone
    | some rowTok =>
      match parse_usize rowTok with
      | none => .error .parseFailed
      | some row =>
        match tokens.get? 2 with
        | none => .error .unwrapNone
        | some colTok =>
          match parse_usize colTok with
          | none => .error .parseFailed
          | some col =>
            match tokens.get? 3 with
            | none => .error .unwrapNone
            | some rest =>
              if 5 ≤ rest.length then
                let code := (rest.drop 1).take 4
                if 6 ≤ rest.length then
                  let msg := rest.drop 6
                  match code.head? with
                  | none => .error .unwrapNone
                  | some c =>
                    match report_kind_of c with
                    | none => .error .unreachableCode
                    | some kind =>
                      .ok { path := path, row := row, col := col,
                            code := code, msg := msg, kind := kind }
                else .error .sliceOutOfRange
              else .error .sliceOutOfRange

instance exceptDecEq {ε α : Type} [DecidableEq ε] [DecidableEq α] :
    DecidableEq (Except ε α) := fun a b => by
  cases a <;> cases b
  case error.error e1 e2 =>
    exact match decEq e1 e2 with
      | isTrue h => isTrue (congrArg _ h)
      | isFalse h => isFalse fun hh => h (by injection hh)
  case ok.ok v1 v2 =>
    exact match decEq v1 v2 with
      | isTrue h => isTrue (congrArg _ h)
      | isFalse h => isFalse fun hh => h (by injection hh)
  case error.ok e v => exact isFalse fun hh => Except.noConfusion hh
  case ok.error v e => exact isFalse fun hh => Except.noConfusion hh

/-- The fixed text of the panic raised by the unreachable! arm
(main.rs 152): it does not depend on the line being parsed. -/
def unreachable_msg : List Char :=
  ['i', 'n', 't', 'e', 'r', 'n', 'a', 'l', ' ', 'e', 'r', 'r', 'o', 'r',
   ':', ' ', 'e', 'n', 't', 'e', 'r', 'e', 'd', ' ', 'u', 'n', 'r', 'e',
   'a', 'c', 'h', 'a', 'b', 'l', 'e', ' ', 'c', 'o', 'd', 'e']

/-- Whether the first list is an initial segment of the second. -/
def leads_with : List Char → List Char → Bool
  | [], _ => true
  | _ :: _, [] => false
  | a :: as', b :: bs => decide (a = b) && leads_with as' bs

/-- Whether the first list occurs contiguously inside the second. -/
def occurs_in (pat : List Char) : List Char → Bool
  | [] => pat.isEmpty
  | c :: rest => leads_with pat (c :: rest) || occurs_in pat rest

theorem split_colon_no_colon (l : List Char) (h : ':' ∉ l) :
    split_colon l = [l] := by
  induction l with
  | nil => rfl
  | cons c rest ih =>
    have hc : ¬ c = ':' := fun he => h (by rw [he]; exact List.mem_cons_self _ _)
    have hrest : ':' ∉ rest := fun hm => h (List.mem_cons_of_mem c hm)
    simp only [split_colon, if_neg hc, ih hrest]

theorem split_colon_append (a b : List Char) (h : ':' ∉ a) :
    split_colon (a ++ ':' :: b) = a :: split_colon b := by
  induction a with
  | nil =>
    simp [split_colon]
  | cons c rest ih =>
    have hc : ¬ c = ':' := fun he => h (by rw [he]; exact List.mem_cons_self _ _)
    have hrest : ':' ∉ rest := fun hm => h (List.mem_cons_of_mem c hm)
    simp [split_colon, if_neg hc, ih hrest]

theorem leads_with_decomp (pat : List Char) :
    ∀ l : List Char, leads_with pat l = true → ∃ post, l = pat ++ post := by
  induction pat with
  | nil => exact fun l _ => ⟨l, rfl⟩
  | cons a as' ih =>
    intro l h
    cases l with
    | nil => exact absurd h (by simp [leads_with])
    | cons b bs =>
      simp only [leads_with, Bool.and_eq_true, decide_eq_true_eq] at h
      obtain ⟨hab, h2⟩ := h
      obtain ⟨post, hp⟩ := ih bs h2
      exact ⟨post, by rw [hp, hab]; rfl⟩

theorem occurs_in_decomp (pat : List Char) :
    ∀ l : List Char, occurs_in pat l = true → ∃ pre post, l = pre ++ pat ++ post := by
  intro l
  induction l with
  | nil =>
    intro h
    simp only [occurs_in, List.isEmpty_iff] at h
    exact ⟨[], [], by simp [h]⟩
  | cons c rest ih =>
    intro h
    simp only [occurs_in, Bool.or_eq_true] at h
    cases h with
    | inl hl =>
      obtain ⟨post, hp⟩ := leads_with_decomp pat _ hl
      exact ⟨[], post, by simp [hp]⟩
    | inr hr =>
      obtain ⟨pre, post, hp⟩ := ih hr
      exact ⟨c :: pre, post, by simp [hp]⟩

theorem occurs_in_mem (pat l : List Char) (c : Char)
    (h : occurs_in pat l = true) (hc : c ∈ pat) : c ∈ l := by
  obtain ⟨pre, post, hp⟩ := occurs_in_decomp pat l h
  rw [hp]
  simp [hc]

theorem parse_usize_head (c : Char) (t : List Char) (r : Nat)
    (h : parse_usize (c :: t) = some r) : is_digit c = true ∨ c = '+' := by
  simp only [parse_usize] at h
  by_cases hp : (c :: t).head? = some ('+' : Char)
  · right
    simpa using hp
  · left
    rw [if_neg hp] at h
    simp only [List.isEmpty_cons, Bool.false_eq_true, if_false] at h
    by_cases hall : (c :: t).all is_digit = true
    · rw [List.all_cons, Bool.and_eq_true] at hall
      exact hall.1
    · rw [if_neg hall] at h
      exact Option.noConfusion h

theorem parse_usize_ne_nil (r : Nat) (h : parse_usize [] = some r) : False := by
  simp [parse_usize] at h

/-- A line that parses as far as a row number is never part of the fixed
unreachable-code panic text: the row token starts with a digit or a plus
sign, and the panic text contains neither. -/
theorem line_not_in_unreachable_msg (line : List Char) (c : Char)
    (hc : c ∈ line) (hdp : is_digit c = true ∨ c = '+') :
    occurs_in line unreachable_msg = false := by
  by_contra hocc
  have hocc' : occurs_in line unreachable_msg = true :=
    Bool.ne_false_iff.mp hocc
  have hcm : c ∈ unreachable_msg := occurs_in_mem line unreachable_msg c hocc' hc
  have hall : ∀ x ∈ unreachable_msg, is_digit x = false ∧ x ≠ '+' := by decide
  obtain ⟨h1, h2⟩ := hall c hcm
  cases hdp with
  | inl h => rw [h1] at h; exact Bool.noConfusion h
  | inr h => exact h2 h

/-- Evaluation of the flake8 line parser on a line of the canonical shape
PATH COLON ROW COLON COL COLON SPACE CODE SPACE MESSAGE-HEAD (optionally
followed by a colon and a tail): the first four colon-separated tokens are
consumed, the code is the four characters after the leading space of the
fourth token, the message is everything after the sixth character of that
token, and the kind comes from the first code character. -/
theorem flake8_line_shape (path rowS colS code3 msgA suffix : List Char)
    (ch : Char) (r c : Nat)
    (hpath : ':' ∉ path) (hrow : ':' ∉ rowS) (hcol : ':' ∉ colS)
    (hcode : ':' ∉ ch :: code3) (hmsg : ':' ∉ msgA)
    (hlen3 : code3.length = 3)
    (hr : parse_usize rowS = some r) (hc : parse_usize colS = some c)
    (hsuf : suffix = [] ∨ ∃ msgB, suffix = ':' :: msgB) :
    flake8_line (path ++ ':' :: (rowS ++ ':' :: (colS ++ ':' ::
        ((' ' :: ((ch :: code3) ++ ' ' :: msgA)) ++ suffix)))) =
      match report_kind_of ch with
      | some kind => .ok { path := path, row := r, col := c,
                           code := ch :: code3, msg := msgA, kind := kind }
      | none => .error .unreachableCode := by
  have hrest0 : ':' ∉ (' ' :: ((ch :: code3) ++ ' ' :: msgA)) := by
    intro hm
    simp only [List.mem_cons, List.mem_append] at hm
    rcases hm with h1 | h2 | h3 | h4
    · exact absurd h1 (by decide)
    · exact hcode (List.mem_cons.mpr h2)
    · exact absurd h3 (by decide)
    · exact hmsg h4
  obtain ⟨gs, hgs⟩ : ∃ gs,
      split_colon ((' ' :: ((ch :: code3) ++ ' ' :: msgA)) ++ suffix) =
        (' ' :: ((ch :: code3) ++ ' ' :: msgA)) :: gs := by
    cases hsuf with
    | inl hnil =>
      subst hnil
      rw [List.append_nil]
      exact ⟨[], split_colon_no_colon _ hrest0⟩
    | inr hcons =>
      obtain ⟨msgB, hb⟩ := hcons
      subst hb
      exact ⟨split_colon msgB, split_colon_append _ msgB hrest0⟩
  have hsplit : split_colon (path ++ ':' :: (rowS ++ ':' :: (colS ++ ':' ::
      ((' ' :: ((ch :: code3) ++ ' ' :: msgA)) ++ suffix)))) =
      path :: rowS :: colS :: (' ' :: ((ch :: code3) ++ ' ' :: msgA)) :: gs := by
    rw [split_colon_append _ _ hpath, split_colon_append _ _ hrow,
      split_colon_append _ _ hcol, hgs]
  have hlenr : (' ' :: ((ch :: code3) ++ ' ' :: msgA)).length = 6 + msgA.length := by
    simp [hlen3]
    omega
  have hdrop1 : ((' ' :: ((ch :: code3) ++ ' ' :: msgA)).drop 1).take 4 =
      ch :: code3 := by
    show ((ch :: code3) ++ ' ' :: msgA).take 4 = ch :: code3
    exact List.take_left' (by simp [hlen3])
  have hdrop6 : (' ' :: ((ch :: code3) ++ ' ' :: msgA)).drop 6 = msgA := by
    have hre : (' ' :: ((ch :: code3) ++ ' ' :: msgA)) =
        (' ' :: ch :: (code3 ++ [' '])) ++ msgA := by
      simp
    rw [hre]
    exact List.drop_left' (by simp [hlen3])
  simp only [flake8_line, hsplit, List.get?, hr, hc,
    if_pos (show 5 ≤ (' ' :: ((ch :: code3) ++ ' ' :: msgA)).length by omega),
    if_pos (show 6 ≤ (' ' :: ((ch :: code3) ++ ' ' :: msgA)).length by omega),
    hdrop1, hdrop6, List.head?]
  cases report_kind_of ch <;> rfl

/-- C4: on every well-formed flake8 output line the severity of the
produced diagnostic is determined by the first letter of its 4-character
CODE: E and F give Error, W and N give Warning, C gives Advice. -/
theorem c4_flake8_severity_mapping (path rowS colS code3 msgA suffix : List Char)
    (ch : Char) (r c : Nat)
    (hpath : ':' ∉ path) (hrow : ':' ∉ rowS) (hcol : ':' ∉ colS)
    (hcode : ':' ∉ ch :: code3) (hmsg : ':' ∉ msgA)
    (hlen3 : code3.length = 3)
    (hr : parse_usize rowS = some r) (hc : parse_usize colS = some c)
    (hsuf : suffix = [] ∨ ∃ msgB, suffix = ':' :: msgB) :
    (ch = 'E' ∨ ch = 'F' →
      flake8_line (path ++ ':' :: (rowS ++ ':' :: (colS ++ ':' ::
          ((' ' :: ((ch :: code3) ++ ' ' :: msgA)) ++ suffix)))) =
        .ok { path := path, row := r, col := c, code := ch :: code3,
              msg := msgA, kind := ReportKind.Error }) ∧
    (ch = 'W' ∨ ch = 'N' →
      flake8_line (path ++ ':' :: (rowS ++ ':' :: (colS ++ ':' ::
          ((' ' :: ((ch :: code3) ++ ' ' :: msgA)) ++ suffix)))) =
        .ok { path := path, row := r, col := c, code := ch :: code3,
              msg := msgA, kind := ReportKind.Warning }) ∧
    (ch = 'C' →
      flake8_line (path ++ ':' :: (rowS ++ ':' :: (colS ++ ':' ::
          ((' ' :: ((ch :: code3) ++ ' ' :: msgA)) ++ suffix)))) =
        .ok { path := path, row := r, col := c, code := ch :: code3,
              msg := msgA, kind := ReportKind.Advice }) := by
  refine ⟨?_, ?_, ?_⟩
  · rintro (rfl | rfl) <;>
      (rw [flake8_line_shape path rowS colS code3 msgA suffix _ r c
        hpath hrow hcol hcode hmsg hlen3 hr hc hsuf]; rfl)
  · rintro (rfl | rfl) <;>
      (rw [flake8_line_shape path rowS colS code3 msgA suffix _ r c
        hpath hrow hcol hcode hmsg hlen3 hr hc hsuf]; rfl)
  · rintro rfl
    rw [flake8_line_shape path rowS colS code3 msgA suffix _ r c
      hpath hrow hcol hcode hmsg hlen3 hr hc hsuf]
    rfl

/-- Witness for C4: the one-line input a.py:1:2: F821 boom yields exactly
one diagnostic with severity Error. -/
theorem c4_flake8_severity_mapping_witness :
    flake8_line ("a.py".data ++ ':' :: ("1".data ++ ':' :: ("2".data ++ ':' ::
        ((' ' :: (('F' :: "821".data) ++ ' ' :: "boom".data)) ++ [])))) =
      .ok { path := "a.py".data, row := 1, col := 2, code := 'F' :: "821".data,
            msg := "boom".data, kind := ReportKind.Error } :=
  (c4_flake8_severity_mapping "a.py".data "1".data "2".data "821".data
    "boom".data [] 'F' 1 2 (by decide) (by decide) (by decide) (by decide)
    (by decide) (by decide) (by decide) (by decide) (Or.inl rfl)).1
    (Or.inr rfl)

/-- C5 counterexample: on the line a.py:1:1: X123 boom, whose CODE starts
with a letter other than E, W, F, C, N, the adapter does not fail with a
parse error naming the offending line: it takes the unreachable! arm, and
the fixed panic message of that arm does not contain the line. -/
theorem c5_counterexample :
    flake8_line "a.py:1:1: X123 boom".data =
      .error FlakePanic.unreachableCode ∧
    occurs_in "a.py:1:1: X123 boom".data unreachable_msg = false := by
  decide

/-- C5 amended: on every canonical-shape line whose CODE begins with a
letter other than E, W, F, C, N, the adapter fails, but through the
unreachable! panic, whose fixed message does not name (does not even
contain) the offending line. -/
theorem c5_unknown_code_hits_unreachable (path rowS colS code3 msgA suffix : List Char)
    (ch : Char) (r c : Nat)
    (hpath : ':' ∉ path) (hrow : ':' ∉ rowS) (hcol : ':' ∉ colS)
    (hcode : ':' ∉ ch :: code3) (hmsg : ':' ∉ msgA)
    (hlen3 : code3.length = 3)
    (hr : parse_usize rowS = some r) (hc : parse_usize colS = some c)
    (hsuf : suffix = [] ∨ ∃ msgB, suffix = ':' :: msgB)
    (hko : report_kind_of ch = none) :
    flake8_line (path ++ ':' :: (rowS ++ ':' :: (colS ++ ':' ::
        ((' ' :: ((ch :: code3) ++ ' ' :: msgA)) ++ suffix)))) =
      .error FlakePanic.unreachableCode ∧
    occurs_in (path ++ ':' :: (rowS ++ ':' :: (colS ++ ':' ::
        ((' ' :: ((ch :: code3) ++ ' ' :: msgA)) ++ suffix))))
      unreachable_msg = false := by
  constructor
  · rw [flake8_line_shape path rowS colS code3 msgA suffix _ r c
      hpath hrow hcol hcode hmsg hlen3 hr hc hsuf, hko]
  · cases rowS with
    | nil => exact (parse_usize_ne_nil r hr).elim
    | cons c0 t =>
      have hdp := parse_usize_head c0 t r hr
      have hc0 : c0 ∈ path ++ ':' :: ((c0 :: t) ++ ':' :: (colS ++ ':' ::
          ((' ' :: ((ch :: code3) ++ ' ' :: msgA)) ++ suffix))) :=
        List.mem_append.mpr (Or.inr (List.mem_cons_of_mem _
          (List.mem_append.mpr (Or.inl (List.mem_cons_self c0 t)))))
      exact line_not_in_unreachable_msg _ c0 hc0 hdp

/-- Witness for C5 (amended): the line a.py:1:2: X123 boom takes the
unreachable! arm and the panic text does not contain the line. -/
theorem c5_unknown_code_hits_unreachable_witness :
    flake8_line ("a.py".data ++ ':' :: ("1".data ++ ':' :: ("2".data ++ ':' ::
        ((' ' :: (('X' :: "123".data) ++ ' ' :: "boom".data)) ++ [])))) =
      .error FlakePanic.unreachableCode ∧
    occurs_in ("a.py".data ++ ':' :: ("1".data ++ ':' :: ("2".data ++ ':' ::
        ((' ' :: (('X' :: "123".data) ++ ' ' :: "boom".data)) ++ []))))
      unreachable_msg = false :=
  c5_unknown_code_hits_unreachable "a.py".data "1".data "2".data "123".data
    "boom".data [] 'X' 1 2 (by decide) (by decide) (by decide) (by decide)
    (by decide) (by decide) (by decide) (by decide) (Or.inl rfl) (by decide)

/-- C9: when the MESSAGE of a flake8 line itself contains a colon, the
adapter silently keeps only the part of MESSAGE before its first colon:
the produced diagnostic has msg equal to that colon-free head, and the
colon with everything after it is absent. -/
theorem c9_message_truncated_at_first_colon (path rowS colS code3 msgA msgB : List Char)
    (ch : Char) (r c : Nat) (kind : ReportKind)
    (hpath : ':' ∉ path) (hrow : ':' ∉ rowS) (hcol : ':' ∉ colS)
    (hcode : ':' ∉ ch :: code3) (hmsg : ':' ∉ msgA)
    (hlen3 : code3.length = 3)
    (hr : parse_usize rowS = some r) (hc : parse_usize colS = some c)
    (hkind : report_kind_of ch = some kind) :
    flake8_line (path ++ ':' :: (rowS ++ ':' :: (colS ++ ':' ::
        ((' ' :: ((ch :: code3) ++ ' ' :: msgA)) ++ ':' :: msgB)))) =
      .ok { path := path, row := r, col := c, code := ch :: code3,
            msg := msgA, kind := kind } := by
  rw [flake8_line_shape path rowS colS code3 msgA (':' :: msgB) ch r c
    hpath hrow hcol hcode hmsg hlen3 hr hc (Or.inr ⟨msgB, rfl⟩), hkind]

/-- Witness for C9: on a.py:1:1: E501 line too long: 88 > 79 the rendered
label message is just "line too long". -/
theorem c9_message_truncated_at_first_colon_witness :
    flake8_line ("a.py".data ++ ':' :: ("1".data ++ ':' :: ("1".data ++ ':' ::
        ((' ' :: (('E' :: "501".data) ++ ' ' :: "line too long".data)) ++
          ':' :: " 88 > 79".data)))) =
      .ok { path := "a.py".data, row := 1, col := 1, code := 'E' :: "501".data,
            msg := "line too long".data, kind := ReportKind.Error } :=
  c9_message_truncated_at_first_colon "a.py".data "1".data "1".data "501".data
    "line too long".data " 88 > 79".data 'E' 1 1 ReportKind.Error (by decide)
    (by decide) (by decide) (by decide) (by decide) (by decide) (by decide)
    (by decide) (by decide)

/-- Terminal commands queued into the BufWriter around stdout at startup
(main.rs 243-245): their bytes sit in the buffer and reach the terminal
only on a flush. -/
inductive QueuedCmd
  | enterAlternateScreen
  | cursorHide
  | disableLineWrap
deriving DecidableEq

/-- Observable startup effects of main (main.rs 242-264), in order:
queueing a terminal command into the stdout buffer (not yet visible on the
terminal), enabling raw mode (a termios call that takes effect
immediately), spawning an analyzer subprocess, aborting through a panic
with the given message (the process then exits with a non-zero code), and
the first flush of the buffer (only at a flush does the terminal actually
switch to the alternate screen). -/
inductive StartupEv
  | queued (c : QueuedCmd)
  | rawModeEnabled
  | spawned (tool : List Char)
  | panicked (msg : List Char)
  | flushed
deriving DecidableEq

def pyright_name : List Char := "pyright".data

def flake8_name : List Char := "flake8".data

/-- The expect message of the pyright spawn (main.rs 76). -/
def no_pyright_msg : List Char := "No pyright in $PATH".data

/-- The expect message of the flake8 spawn (main.rs 121). -/
def no_flake8_msg : List Char := "No flake8 in $PATH".data

/-- The startup effect trace of main (main.rs 242-264) as a function of
whether the two analyzer binaries resolve on the executable search path.
EnterAlternateScreen, cursor::Hide and DisableLineWrap are queued at
243-245; enable_raw_mode at 246 acts immediately; render_in_buffer then
runs pyright() and flake8(), whose Command::output().expect panics with
the given message when the binary cannot be launched; when both succeed,
the first flush of the queued commands happens inside the initial
render_to_term (main.rs 264 calling 231).  Analyzer output parsing and
snippet rendering have no terminal effects and are elided; the trace ends
at a panic. -/
def startup_trace (pyright_on_path flake8_on_path : Bool) : List StartupEv :=
  [.queued .enterAlternateScreen, .queued .cursorHide, .queued .disableLineWrap,
   .rawModeEnabled, .spawned pyright_name] ++
  (if pyright_on_path then
    [.spawned flake8_name] ++
      (if flake8_on_path then [.flushed] else [.panicked no_flake8_msg])
  else [.panicked no_pyright_msg])

/-- C3 counterexample: with pyright missing from the search path, raw mode
is enabled (trace position 3) strictly before the error surfaces (the
panic at position 5), so it is not true that raw mode has not been entered
when the error is surfaced. -/
theorem c3_counterexample :
    startup_trace false true =
      [StartupEv.queued QueuedCmd.enterAlternateScreen,
       StartupEv.queued QueuedCmd.cursorHide,
       StartupEv.queued QueuedCmd.disableLineWrap,
       StartupEv.rawModeEnabled, StartupEv.spawned pyright_name,
       StartupEv.panicked no_pyright_msg] ∧
    (startup_trace false true).indexOf StartupEv.rawModeEnabled <
      (startup_trace false true).indexOf (StartupEv.panicked no_pyright_msg) := by
  decide

/-- C3 amended: if the pyright binary is not on the executable search path,
the program aborts through a panic (non-zero exit) whose message names
pyright, and no flush has happened, so the queued alternate-screen switch
has not reached the terminal; raw mode, however, has already been enabled
before the error is surfaced. -/
theorem c3_missing_tool_aborts_before_flush (b : Bool) :
    ∃ pre post,
      startup_trace false b = pre ++ StartupEv.panicked no_pyright_msg :: post ∧
      occurs_in pyright_name no_pyright_msg = true ∧
      StartupEv.flushed ∉ startup_trace false b ∧
      StartupEv.rawModeEnabled ∈ pre ∧
      StartupEv.queued QueuedCmd.enterAlternateScreen ∈ pre := by
  refine ⟨[StartupEv.queued QueuedCmd.enterAlternateScreen,
    StartupEv.queued QueuedCmd.cursorHide,
    StartupEv.queued QueuedCmd.disableLineWrap,
    StartupEv.rawModeEnabled, StartupEv.spawned pyright_name], [],
    ?_, ?_, ?_, ?_, ?_⟩ <;> cases b <;> decide

/-- The byte content of the selection marker written for the selected item
(main.rs 209): the UTF-8 bytes of the triangle glyph followed by a
space. -/
def marker_bytes : List Nat := [226, 150, 183, 32]

/-- One paint command queued or written by App::render_to_term
(main.rs 196-232).  moveTo carries the zero-based (column, row) arguments
of crossterm MoveTo; writeBadge stands for the formatted write of the
badge text holding the 1-based item number between spaces (main.rs 216);
writeSubline is the write_all of one stored item row (main.rs 222);
flushOut is the final flush (main.rs 231). -/
inductive PaintCmd
  | clearAll
  | moveTo (col row : Nat)
  | moveRight (n : Nat)
  | setColors
  | resetColor
  | writeBytes (bs : List Nat)
  | writeBadge (n : Nat)
  | writeSubline (bs : List Nat)
  | moveToNextLine (n : Nat)
  | flushOut
deriving DecidableEq

/-- crossterm cursor coordinates are zero-based: the top-left cell of the
terminal is column 0, row 0. -/
def top_left : PaintCmd := PaintCmd.moveTo 0 0

/-- The row loop of render_to_term (main.rs 203-230), with the remaining
row count as the recursion measure.  The in-bounds indexing of
items[item].lines[subline] is modelled with getD; the loop guard keeps
item below the item count, and for the well-formed states of Bounds the
subline index is in range. -/
def render_rows (items : List Item) (selected : Nat) :
    Nat → Nat → Nat → List PaintCmd
  | 0, _, _ => []
  | rows + 1, item, subline =>
    if item ≥ items.length then []
    else
      (if subline = 0 then
        (if item = selected then [PaintCmd.writeBytes marker_bytes]
         else [PaintCmd.moveRight 3]) ++
        [PaintCmd.setColors, PaintCmd.writeBadge (item + 1),
         PaintCmd.resetColor, PaintCmd.writeBytes [32]]
      else [PaintCmd.moveRight 3]) ++
      [PaintCmd.writeSubline ((items.getD item { lines := [] }).lines.getD subline []),
       PaintCmd.moveToNextLine 1] ++
      (if subline + 1 ≥ nl items item then
        render_rows items selected rows (item + 1) 0
      else render_rows items selected rows item (subline + 1))

/-- App::render_to_term (main.rs 196-232): clear the whole screen, move the
cursor with MoveTo(1, 1), emit up to height rows starting at the viewport
anchor, flush. -/
def render_to_term (a : App) : List PaintCmd :=
  [PaintCmd.clearAll, PaintCmd.moveTo 1 1] ++
  render_rows a.items a.selected_item a.height a.first_visible_item
    a.first_visible_subline ++ [PaintCmd.flushOut]

/-- A one-item, one-subline application state on a height-1 terminal. -/
def one_item_app : App := App.mk [{ lines := [[65]] }] [0] 0 0 0 80 1

/-- C8 counterexample: a repaint that does emit a subline moves the cursor
with MoveTo(1, 1), and at no point moves it to the top-left cell
(crossterm MoveTo is zero-based, so MoveTo(1, 1) is the second column of
the second row): the claim that the cursor is moved to row 1, column 1,
the top-left cell, is false. -/
theorem c8_counterexample :
    render_to_term one_item_app =
      [PaintCmd.clearAll, PaintCmd.moveTo 1 1, PaintCmd.writeBytes marker_bytes,
       PaintCmd.setColors, PaintCmd.writeBadge 1, PaintCmd.resetColor,
       PaintCmd.writeBytes [32], PaintCmd.writeSubline [65],
       PaintCmd.moveToNextLine 1, PaintCmd.flushOut] ∧
    top_left ∉ render_to_term one_item_app := by
  decide

/-- C8 amended: on every repaint the driver first clears the screen and
then moves the cursor with MoveTo(1, 1) -- the zero-based second column of
the second row, not the top-left cell -- before emitting any subline
output. -/
theorem c8_clear_then_move (a : App) :
    (render_to_term a).take 2 = [PaintCmd.clearAll, PaintCmd.moveTo 1 1] ∧
    PaintCmd.moveTo 1 1 ≠ top_left := by
  exact ⟨rfl, by decide⟩

end Devon
